import Mathlib

/-!
convertToCylindrical: Cartesian to cylindrical velocity conversion.

A shallow embedding of `convertToCylindrical.C` (an OpenFOAM post-processing
utility) together with the properties its specification states about the
per-cell cylindrical basis and the projected velocity.

The scalar type `K` stands for OpenFOAM's `scalar`.  The definitions are
generic in `K` and take the square root as an explicit argument, so they can
be evaluated on any field with a computable root; the theorems instantiate
`K` with the real numbers and `Real.sqrt`, the idealisation under which the
specification states its properties ("exactly, over the reals").

A division whose divisor is zero is a failure of the computation (`none`):
in the program it raises a floating-point exception or produces a
non-number, in neither case a vector.  A field holds one such value per cell.
A pass of the loop over the time directories ends the run when the constructor
of the object `cyl` aborts, which is OpenFOAM's and is modelled from its
behaviour.
-/

namespace ConvertToCylindrical

/-! ## OpenFOAM `vector` and the operations the program uses -/

/-- The OpenFOAM `vector` (and `point`): three Cartesian components. -/
@[ext]
structure Vec (K : Type) where
  x : K
  y : K
  z : K
deriving DecidableEq

/-- The component labels `vector::X`, `vector::Y`, `vector::Z`. -/
inductive Cmpt where
  | X
  | Y
  | Z
deriving DecidableEq

section Ops

variable {K : Type} [Field K]

/-- The constant `vector::zero`. -/
def Vec.zero : Vec K := ⟨0, 0, 0⟩

/-- The constant `globalX(1, 0, 0)` of `main`. -/
def globalX : Vec K := ⟨1, 0, 0⟩

/-- The constant `globalY(0, 1, 0)` of `main`. -/
def globalY : Vec K := ⟨0, 1, 0⟩

/-- The constant `globalZ(0, 0, 1)` of `main`. -/
def globalZ : Vec K := ⟨0, 0, 1⟩

/-- Vector sum, `a + b`. -/
def Vec.add (a b : Vec K) : Vec K := ⟨a.x + b.x, a.y + b.y, a.z + b.z⟩

/-- Vector difference, `a - b`. -/
def Vec.sub (a b : Vec K) : Vec K := ⟨a.x - b.x, a.y - b.y, a.z - b.z⟩

/-- Scalar multiple, `s * a`. -/
def Vec.smul (s : K) (a : Vec K) : Vec K := ⟨s * a.x, s * a.y, s * a.z⟩

/-- Component-wise product, OpenFOAM `cmptMultiply(a, b)`. -/
def cmptMultiply (a b : Vec K) : Vec K := ⟨a.x * b.x, a.y * b.y, a.z * b.z⟩

/-- Inner product, OpenFOAM `a & b`. -/
def Vec.dot (a b : Vec K) : K := a.x * b.x + a.y * b.y + a.z * b.z

/-- Cross product, OpenFOAM `a ^ b`. -/
def Vec.cross (a b : Vec K) : Vec K :=
  ⟨a.y * b.z - a.z * b.y, a.z * b.x - a.x * b.z, a.x * b.y - a.y * b.x⟩

/-- Squared magnitude, OpenFOAM `magSqr(a)`. -/
def magSqr (a : Vec K) : K := a.x * a.x + a.y * a.y + a.z * a.z

/-- Magnitude, OpenFOAM `mag(a)`: the square root of `magSqr`. -/
def mag (sqrt : K → K) (a : Vec K) : K := sqrt (magSqr a)

/-- Replacement of one component, OpenFOAM `replace(cmpt, s)`. -/
def Vec.replace (v : Vec K) (d : Cmpt) (s : K) : Vec K :=
  match d with
  | Cmpt.X => ⟨s, v.y, v.z⟩
  | Cmpt.Y => ⟨v.x, s, v.z⟩
  | Cmpt.Z => ⟨v.x, v.y, s⟩

variable [DecidableEq K]

/-- Division of a vector by a scalar, `a / s`, component by component.  A zero
divisor is a failure. -/
def Vec.divide (a : Vec K) (s : K) : Option (Vec K) :=
  if s = 0 then none else some ⟨a.x / s, a.y / s, a.z / s⟩

/-! ## The program -/

/-- The numerator of `cRad` (line 136) at one cell centre `C`:
`mesh.C() - cmptMultiply(mesh.C(), axisVec)`. -/
def radialPart (axisVec C : Vec K) : Vec K := C.sub (cmptMultiply C axisVec)

/-- The field `cRad` (lines 126-137) at one cell centre `C`:
`(C - cmptMultiply(C, axisVec)) / mag(C - cmptMultiply(C, axisVec))`. -/
def cRad (sqrt : K → K) (axisVec C : Vec K) : Option (Vec K) :=
  (radialPart axisVec C).divide (mag sqrt (radialPart axisVec C))

/-- The field `cTheta` (lines 139-150) at one cell centre `C`:
`(axisVec ^ cRad) / mag(axisVec ^ cRad)`. -/
def cTheta (sqrt : K → K) (axisVec C : Vec K) : Option (Vec K) :=
  (cRad sqrt axisVec C).bind fun r =>
    (axisVec.cross r).divide (mag sqrt (axisVec.cross r))

/-- The three `Ucyl.replace` statements (lines 198-200) at one cell, applied
in the program's order to the initial value `vector::zero` of `Ucyl`. -/
def project (axisVec r t U : Vec K) : Vec K :=
  (((Vec.zero.replace Cmpt.X (U.dot r)).replace Cmpt.Y (U.dot t)).replace
    Cmpt.Z (U.dot axisVec))

/-- The field `Ucyl` (lines 176-200) at one cell with centre `C` and Cartesian
velocity `U`. -/
def Ucyl (sqrt : K → K) (axisVec C U : Vec K) : Option (Vec K) :=
  (cRad sqrt axisVec C).bind fun r =>
    (cTheta sqrt axisVec C).bind fun t =>
      some (project axisVec r t U)

/-- The entry `rotatingMotionCoeffs` of `dynamicMeshDict`, as far as `main`
reads it (lines 83-91): the keys `axis` and `origin`. -/
structure RotatingMotionCoeffs (K : Type) where
  axis : Vec K
  origin : Vec K

/-- The local `axisVec` of `main` (lines 83-86): the looked-up `axis`. -/
def axisVec (d : RotatingMotionCoeffs K) : Vec K := d.axis

/-- The local `rotCenter` of `main` (lines 88-91): the looked-up `origin`. -/
def rotCenter (d : RotatingMotionCoeffs K) : Vec K := d.origin

/-- The two basis vectors the loop body builds for one cell (lines 126-150),
from the configuration read by `main`. -/
def basis (sqrt : K → K) (d : RotatingMotionCoeffs K) (C : Vec K) :
    Option (Vec K × Vec K) :=
  (cRad sqrt (axisVec d) C).bind fun r =>
    (cTheta sqrt (axisVec d) C).bind fun t => some (r, t)

/-- The value written to `Ucyl` for one cell (lines 176-202), from the
configuration read by `main`. -/
def convert (sqrt : K → K) (d : RotatingMotionCoeffs K) (C U : Vec K) :
    Option (Vec K) :=
  Ucyl sqrt (axisVec d) C U

/-! ## The seed direction, the fields and the loop over the time steps -/

/-- The local `dirVec` of `main` (lines 98-102): initialised with `axisVec`,
then three tests of `axisVec` in sequence.  OpenFOAM's `==` on vectors compares
component by component and is taken as equality of the components. -/
def dirVec (axisVec : Vec K) : Vec K :=
  let d0 := axisVec
  let d1 := if axisVec = globalX then globalY else d0
  let d2 := if axisVec = globalY then globalZ else d1
  let d3 := if axisVec = globalZ then globalX else d2
  d3

/-- The object `cyl` of lines 115-122, as far as its arguments go: centre,
axis, direction and the degrees switch. -/
structure cylindricalCS (K : Type) where
  origin : Vec K
  axis : Vec K
  direction : Vec K
  inDegrees : Bool

/-- An OpenFOAM `dimensionSet`: the exponents of mass, length, time,
temperature, moles, current and luminous intensity. -/
structure dimensionSet where
  mass : Int
  length : Int
  time : Int
  temperature : Int
  moles : Int
  current : Int
  luminousIntensity : Int
deriving DecidableEq

/-- The dimensions of `mesh.C()`, a length. -/
def dimLength : dimensionSet := ⟨0, 1, 0, 0, 0, 0, 0⟩

/-- The dimensions of a quotient of dimensioned quantities. -/
def dimensionSet.div (a b : dimensionSet) : dimensionSet :=
  ⟨a.mass - b.mass, a.length - b.length, a.time - b.time,
    a.temperature - b.temperature, a.moles - b.moles, a.current - b.current,
    a.luminousIntensity - b.luminousIntensity⟩

/-- The names of the fields the program reads or writes: `"U"`, `"cRad"`,
`"cTheta"`, `"Ucyl"`. -/
inductive FieldName where
  | U
  | cRad
  | cTheta
  | Ucyl
deriving DecidableEq

/-- A `volVectorField` as far as the program uses it: its name, its dimensions
and one value per cell; a cell whose value needed a division by zero has
none. -/
structure volVectorField (K : Type) where
  name : FieldName
  dimensions : dimensionSet
  cells : List (Option (Vec K))

/-- What one time directory holds for the loop body: the cell centres
`mesh.C()` after `mesh.readUpdate()`, and the field `U` (its dimensions and
its value per cell) when `Uheader.headerOk()`. -/
structure TimeDir (K : Type) where
  C : List (Vec K)
  U : Option (dimensionSet × List (Vec K))

/-- The state at the end of one pass of the loop body (lines 106-208): the
object `cyl`, the fields `cRad` and `cTheta`, the field `Ucyl` when `U` exists,
and the fields written, in the order of the `write()` calls. -/
structure StepResult (K : Type) where
  cyl : cylindricalCS K
  cRad : volVectorField K
  cTheta : volVectorField K
  Ucyl : Option (volVectorField K)
  written : List (volVectorField K)

/-- The loop body after `cyl` is constructed (lines 124-208).  `cRad` is a
length divided by a length, `cTheta` a quotient of dimensionless vectors;
`Ucyl` is constructed with the dimensions `dimensionSet(0,1,-1,0,0,0,0)` of
line 190, and `replace` sets its components only.  The object `cyl` is not
used. -/
def loopBody (sqrt : K → K) (cyl : cylindricalCS K) (saveUnitVectors : Bool)
    (d : RotatingMotionCoeffs K) (t : TimeDir K) : StepResult K :=
  let cRadField : volVectorField K :=
    ⟨FieldName.cRad, dimLength.div dimLength, t.C.map (cRad sqrt (axisVec d))⟩
  let cThetaField : volVectorField K :=
    ⟨FieldName.cTheta, cRadField.dimensions.div cRadField.dimensions,
      t.C.map (cTheta sqrt (axisVec d))⟩
  let saved := if saveUnitVectors then [cRadField, cThetaField] else []
  match t.U with
  | some U =>
    let UcylField : volVectorField K :=
      ⟨FieldName.Ucyl, ⟨0, 1, -1, 0, 0, 0, 0⟩,
        List.zipWith (Ucyl sqrt (axisVec d)) t.C U.2⟩
    ⟨cyl, cRadField, cThetaField, some UcylField, saved ++ [UcylField]⟩
  | none => ⟨cyl, cRadField, cThetaField, none, saved⟩

/-- The outcome of a run that got past the configuration: the passes of the
loop body that were completed, in the order of `timeDirs`, and the exit code
of the process. -/
structure RunResult (K : Type) where
  steps : List (StepResult K)
  exitCode : Int

/-- Modelled from the spec: the kinds of fatal configuration error of
section 7.  The program itself has no error type; its lookups are OpenFOAM's
`IOdictionary`, `subDict` and `lookup`. -/
inductive ConfigError where
  | ConfigMissing
  | ConfigShape
  | ConfigValue
deriving DecidableEq

/-- The document `dynamicMeshDict` as `main` finds it: absent, present without
the path `solidBodyMotionFvMeshCoeffs/rotatingMotionCoeffs` or one of the keys
`axis` and `origin`, or holding both keys. -/
inductive DynamicMeshDict (K : Type) where
  | absent
  | incomplete
  | coeffs (d : RotatingMotionCoeffs K)

/-- Modelled from the spec: the two failing outcomes of the lookups of
lines 71-91 (section 4.1), which belong to OpenFOAM's dictionary classes.  In
the remaining case the values are taken as they are read (lines 83-91); the
program has no test of the axis. -/
def readConfig (doc : DynamicMeshDict K) :
    Except ConfigError (RotatingMotionCoeffs K) :=
  match doc with
  | DynamicMeshDict.absent => Except.error ConfigError.ConfigMissing
  | DynamicMeshDict.incomplete => Except.error ConfigError.ConfigShape
  | DynamicMeshDict.coeffs d => Except.ok d

/-- OpenFOAM's tolerance `SMALL`, `1e-15`. -/
def SMALL : K := 1 / 10 ^ 15

section Loop

variable [LT K] [DecidableRel (fun (x y : K) => x < y)]

/-- The constructor of `cylindricalCS` called at lines 115-122.  The class
belongs to OpenFOAM, not to this repository, and is modelled from its
behaviour: the axis is normalised, the part of the direction orthogonal to it
is taken, and the construction aborts with a fatal error ("axis1, axis2 appear
co-linear") when the magnitude of that part is below `SMALL`.  For a zero axis
the normalisation divides by zero and the test does not fire. -/
def cylindricalCS.construct (sqrt : K → K) (origin axis direction : Vec K)
    (inDegrees : Bool) : Option (cylindricalCS K) :=
  match axis.divide (mag sqrt axis) with
  | none => some ⟨origin, axis, direction, inDegrees⟩
  | some a =>
    if mag sqrt (direction.sub (Vec.smul (direction.dot a) a)) < SMALL then none
    else some ⟨origin, axis, direction, inDegrees⟩

/-- The loop body (lines 106-208) with the direction handed to `cyl` as an
argument: the pass ends at lines 115-122 when the constructor aborts, and goes
on to lines 124-208 otherwise. -/
def timeStepWith (sqrt : K → K) (direction : Vec K) (saveUnitVectors : Bool)
    (d : RotatingMotionCoeffs K) (t : TimeDir K) : Option (StepResult K) :=
  (cylindricalCS.construct sqrt (rotCenter d) (axisVec d) direction false).map
    fun cyl => loopBody sqrt cyl saveUnitVectors d t

/-- The loop body as `main` runs it: `cyl` gets `dirVec`. -/
def timeStep (sqrt : K → K) (saveUnitVectors : Bool)
    (d : RotatingMotionCoeffs K) (t : TimeDir K) : Option (StepResult K) :=
  timeStepWith sqrt (dirVec (axisVec d)) saveUnitVectors d t

/-- The loop `forAll(timeDirs, timeI)` from a given time directory on, after
the passes `done`.  A fatal error ends the process at once, with a non-zero
exit code (taken as `1`); after the last pass `main` returns `0`. -/
def runFrom (sqrt : K → K) (saveUnitVectors : Bool) (d : RotatingMotionCoeffs K) :
    List (TimeDir K) → List (StepResult K) → RunResult K
  | [], done => ⟨done, 0⟩
  | t :: rest, done =>
    match timeStep sqrt saveUnitVectors d t with
    | none => ⟨done, 1⟩
    | some s => runFrom sqrt saveUnitVectors d rest (done ++ [s])

/-- The loop `forAll(timeDirs, timeI)` and the final `return 0`
(lines 104-211). -/
def run (sqrt : K → K) (saveUnitVectors : Bool) (d : RotatingMotionCoeffs K)
    (timeDirs : List (TimeDir K)) : RunResult K :=
  runFrom sqrt saveUnitVectors d timeDirs []

/-- The program `main`: the configuration is read once, then the loop runs
over the selected time directories. -/
def main (sqrt : K → K) (saveUnitVectors : Bool) (doc : DynamicMeshDict K)
    (timeDirs : List (TimeDir K)) : Except ConfigError (RunResult K) :=
  match readConfig doc with
  | Except.error e => Except.error e
  | Except.ok d => Except.ok (run sqrt saveUnitVectors d timeDirs)

end Loop

/-! ## The reference of the specification -/


/-- The perpendicular part of the specification (section 4.3):
`perp = p - (p . a) a` with `p = c - o`. -/
def specPerp (a o c : Vec K) : Vec K :=
  (c.sub o).sub (Vec.smul ((c.sub o).dot a) a)

/-- The radial vector of the specification (section 4.3):
`Rad = perp / |perp|`. -/
def specRad (sqrt : K → K) (a o c : Vec K) : Option (Vec K) :=
  (specPerp a o c).divide (mag sqrt (specPerp a o c))

/-- The tangential vector of the specification (section 4.3):
`Theta = (a x Rad) / |a x Rad|`. -/
def specTheta (sqrt : K → K) (a o c : Vec K) : Option (Vec K) :=
  (specRad sqrt a o c).bind fun r => (a.cross r).divide (mag sqrt (a.cross r))

/-- The projected velocity of the specification (section 4.4):
`Ucyl = (U . Rad, U . Theta, U . a)`. -/
def specUcyl (sqrt : K → K) (a o c U : Vec K) : Option (Vec K) :=
  (specRad sqrt a o c).bind fun r =>
    (specTheta sqrt a o c).bind fun t => some ⟨U.dot r, U.dot t, U.dot a⟩

/-- The rotation of `U` about the unit axis `a` by an angle with cosine `cs`
and sine `sn` (Rodrigues' formula), used to state rotation invariance. -/
def rotateAbout (a : Vec K) (cs sn : K) (U : Vec K) : Vec K :=
  ((Vec.smul cs U).add (Vec.smul sn (a.cross U))).add
    (Vec.smul ((a.dot U) * (1 - cs)) a)

/-- The tolerance of the specification's testable properties, `1e-12`. -/
def eps : K := 1 / 10 ^ 12

end Ops

/-! ## Vector algebra over the reals -/

section Algebra

theorem divide_of_ne_zero (a : Vec ℝ) {s : ℝ} (hs : s ≠ 0) :
    a.divide s = some ⟨a.x / s, a.y / s, a.z / s⟩ := by
  simp [Vec.divide, hs]

theorem divide_zero (a : Vec ℝ) : a.divide 0 = none := by
  simp [Vec.divide]

theorem divide_eq_some_iff (a r : Vec ℝ) (s : ℝ) :
    a.divide s = some r ↔ s ≠ 0 ∧ r = ⟨a.x / s, a.y / s, a.z / s⟩ := by
  unfold Vec.divide
  by_cases hs : s = 0
  · simp [hs]
  · simp [hs, eq_comm]

theorem magSqr_nonneg (a : Vec ℝ) : 0 ≤ magSqr a := by
  unfold magSqr
  nlinarith [mul_self_nonneg a.x, mul_self_nonneg a.y, mul_self_nonneg a.z]

theorem mag_nonneg (a : Vec ℝ) : 0 ≤ mag Real.sqrt a :=
  Real.sqrt_nonneg _

theorem mag_mul_self (a : Vec ℝ) : mag Real.sqrt a * mag Real.sqrt a = magSqr a :=
  Real.mul_self_sqrt (magSqr_nonneg a)

theorem magSqr_eq_zero_iff (a : Vec ℝ) : magSqr a = 0 ↔ a = Vec.zero := by
  constructor
  · intro h
    unfold magSqr at h
    have hx : a.x = 0 := by nlinarith [mul_self_nonneg a.x, mul_self_nonneg a.y, mul_self_nonneg a.z]
    have hy : a.y = 0 := by nlinarith [mul_self_nonneg a.x, mul_self_nonneg a.y, mul_self_nonneg a.z]
    have hz : a.z = 0 := by nlinarith [mul_self_nonneg a.x, mul_self_nonneg a.y, mul_self_nonneg a.z]
    exact Vec.ext hx hy hz
  · intro h
    subst h
    simp [magSqr, Vec.zero]

theorem mag_eq_zero_iff (a : Vec ℝ) : mag Real.sqrt a = 0 ↔ a = Vec.zero := by
  unfold mag
  rw [Real.sqrt_eq_zero (magSqr_nonneg a)]
  exact magSqr_eq_zero_iff a

theorem mag_eq_one_of_magSqr (a : Vec ℝ) (h : magSqr a = 1) : mag Real.sqrt a = 1 := by
  unfold mag
  rw [h, Real.sqrt_one]

/-- A vector divided by its own magnitude has squared magnitude one. -/
theorem magSqr_of_divide_mag (a r : Vec ℝ) (h : a.divide (mag Real.sqrt a) = some r) :
    magSqr r = 1 := by
  obtain ⟨hm, rfl⟩ := (divide_eq_some_iff a r _).1 h
  have hsq := mag_mul_self a
  unfold magSqr at hsq ⊢
  simp only
  field_simp
  linarith

/-- Lagrange's identity for the cross product. -/
theorem magSqr_cross (a b : Vec ℝ) :
    magSqr (a.cross b) = magSqr a * magSqr b - a.dot b * a.dot b := by
  simp only [magSqr, Vec.cross, Vec.dot]
  ring

theorem cross_dot_left (a b : Vec ℝ) : (a.cross b).dot a = 0 := by
  simp only [Vec.cross, Vec.dot]
  ring

theorem cross_dot_right (a b : Vec ℝ) : (a.cross b).dot b = 0 := by
  simp only [Vec.cross, Vec.dot]
  ring

theorem dot_comm (a b : Vec ℝ) : a.dot b = b.dot a := by
  simp only [Vec.dot]
  ring

theorem dot_self (a : Vec ℝ) : a.dot a = magSqr a := rfl

/-- The scalar triple product is invariant under cyclic rotation. -/
theorem triple_rotate (r t a : Vec ℝ) : (r.cross t).dot a = t.dot (a.cross r) := by
  simp only [Vec.cross, Vec.dot]
  ring

/-- The inner products of a normalised vector are those of the vector, divided
by its magnitude. -/
theorem divide_mag_dot (v t w : Vec ℝ) (h : v.divide (mag Real.sqrt v) = some t) :
    t.dot w = v.dot w / mag Real.sqrt v := by
  obtain ⟨_, rfl⟩ := (divide_eq_some_iff v t _).1 h
  simp only [Vec.dot]
  ring

end Algebra

/-! ## What the basis builder computes -/

section Builder

theorem cRad_eq_some_iff (a c r : Vec ℝ) :
    cRad Real.sqrt a c = some r ↔
      radialPart a c ≠ Vec.zero ∧
        r = ⟨(radialPart a c).x / mag Real.sqrt (radialPart a c),
             (radialPart a c).y / mag Real.sqrt (radialPart a c),
             (radialPart a c).z / mag Real.sqrt (radialPart a c)⟩ := by
  unfold cRad
  rw [divide_eq_some_iff, Ne, mag_eq_zero_iff]

theorem cRad_eq_none_iff (a c : Vec ℝ) :
    cRad Real.sqrt a c = none ↔ radialPart a c = Vec.zero := by
  unfold cRad Vec.divide
  by_cases h : mag Real.sqrt (radialPart a c) = 0
  · rw [if_pos h]
    exact ⟨fun _ => (mag_eq_zero_iff _).1 h, fun _ => rfl⟩
  · rw [if_neg h]
    exact ⟨fun h0 => by simp at h0, fun h0 => absurd ((mag_eq_zero_iff _).2 h0) h⟩

theorem cRad_isSome (a c : Vec ℝ) (h : radialPart a c ≠ Vec.zero) :
    ∃ r, cRad Real.sqrt a c = some r :=
  ⟨_, (cRad_eq_some_iff a c _).2 ⟨h, rfl⟩⟩

theorem cRad_magSqr (a c r : Vec ℝ) (h : cRad Real.sqrt a c = some r) : magSqr r = 1 :=
  magSqr_of_divide_mag _ r h

/-- The radial vector is a positive multiple of the numerator of line 136. -/
theorem cRad_dot (a c r v : Vec ℝ) (h : cRad Real.sqrt a c = some r) :
    r.dot v = (radialPart a c).dot v / mag Real.sqrt (radialPart a c) := by
  obtain ⟨_, rfl⟩ := (cRad_eq_some_iff a c r).1 h
  simp only [Vec.dot]
  ring

theorem cTheta_eq_some_iff (a c t : Vec ℝ) :
    cTheta Real.sqrt a c = some t ↔
      ∃ r, cRad Real.sqrt a c = some r ∧
        (a.cross r).divide (mag Real.sqrt (a.cross r)) = some t := by
  unfold cTheta
  cases cRad Real.sqrt a c <;> simp

theorem basis_eq_some_iff (d : RotatingMotionCoeffs ℝ) (c r t : Vec ℝ) :
    basis Real.sqrt d c = some (r, t) ↔
      cRad Real.sqrt (axisVec d) c = some r ∧
        (( axisVec d).cross r).divide (mag Real.sqrt ((axisVec d).cross r)) = some t := by
  unfold basis cTheta
  cases h : cRad Real.sqrt (axisVec d) c with
  | none => simp
  | some r0 =>
    simp only [Option.some_bind, Option.some.injEq]
    constructor
    · intro hb
      cases hq : (( axisVec d).cross r0).divide (mag Real.sqrt ((axisVec d).cross r0)) with
      | none => simp [hq] at hb
      | some t0 =>
        simp only [hq, Option.some_bind, Option.some.injEq, Prod.mk.injEq] at hb
        obtain ⟨rfl, rfl⟩ := hb
        exact ⟨rfl, hq⟩
    · rintro ⟨rfl, hq⟩
      simp [hq]

theorem convert_eq (d : RotatingMotionCoeffs ℝ) (c U : Vec ℝ) :
    convert Real.sqrt d c U =
      (basis Real.sqrt d c).map fun b => project (axisVec d) b.1 b.2 U := by
  unfold convert Ucyl basis
  cases cRad Real.sqrt (axisVec d) c with
  | none => rfl
  | some r =>
    cases cTheta Real.sqrt (axisVec d) c with
    | none => rfl
    | some t => rfl

theorem project_eq (a r t U : Vec ℝ) :
    project a r t U = ⟨U.dot r, U.dot t, U.dot a⟩ := rfl

/-- The tangential vector has unit magnitude and is orthogonal to the axis and
to the radial vector, and the triple product of the frame is the magnitude of
`axisVec ^ cRad`. -/
theorem basis_facts (d : RotatingMotionCoeffs ℝ) (c r t : Vec ℝ)
    (h : basis Real.sqrt d c = some (r, t)) :
    magSqr r = 1 ∧ magSqr t = 1 ∧ t.dot (axisVec d) = 0 ∧ t.dot r = 0 ∧
      (r.cross t).dot (axisVec d) = mag Real.sqrt ((axisVec d).cross r) ∧
      0 < mag Real.sqrt ((axisVec d).cross r) := by
  obtain ⟨hr, ht⟩ := (basis_eq_some_iff d c r t).1 h
  have hr1 := cRad_magSqr _ _ _ hr
  have ht1 := magSqr_of_divide_mag _ _ ht
  have hm : mag Real.sqrt ((axisVec d).cross r) ≠ 0 := ((divide_eq_some_iff _ t _).1 ht).1
  have hpos : 0 < mag Real.sqrt ((axisVec d).cross r) :=
    lt_of_le_of_ne (mag_nonneg _) (Ne.symm hm)
  refine ⟨hr1, ht1, ?_, ?_, ?_, hpos⟩
  · rw [divide_mag_dot _ _ _ ht, cross_dot_left, zero_div]
  · rw [divide_mag_dot _ _ _ ht, cross_dot_right, zero_div]
  · rw [triple_rotate, divide_mag_dot _ _ _ ht, dot_self, ← mag_mul_self]
    field_simp

/-- When the axis has unit magnitude and the radial vector is orthogonal to it,
the tangential vector is `axisVec ^ cRad` itself. -/
theorem basis_of_orthogonal (d : RotatingMotionCoeffs ℝ) (c r : Vec ℝ)
    (hr : cRad Real.sqrt (axisVec d) c = some r) (ha : magSqr (axisVec d) = 1)
    (hra : r.dot (axisVec d) = 0) :
    basis Real.sqrt d c = some (r, (axisVec d).cross r) := by
  rw [basis_eq_some_iff]
  refine ⟨hr, ?_⟩
  have hsq : magSqr ((axisVec d).cross r) = 1 := by
    rw [magSqr_cross, ha, cRad_magSqr _ _ _ hr, dot_comm, hra]
    norm_num
  rw [mag_eq_one_of_magSqr _ hsq, divide_of_ne_zero _ one_ne_zero]
  simp

/-- For an axis among `globalX`, `globalY`, `globalZ`: the axis has unit
magnitude, the numerator of line 136 is orthogonal to it, and that numerator is
the perpendicular part of the specification about the origin `(0, 0, 0)`. -/
theorem global_axis_facts (a c : Vec ℝ)
    (ha : a = globalX ∨ a = globalY ∨ a = globalZ) :
    magSqr a = 1 ∧ (radialPart a c).dot a = 0 ∧
      specPerp a Vec.zero c = radialPart a c := by
  rcases ha with rfl | rfl | rfl <;>
    refine ⟨?_, ?_, ?_⟩ <;>
    simp [magSqr, radialPart, cmptMultiply, specPerp, Vec.dot, Vec.sub, Vec.smul,
      Vec.zero, globalX, globalY, globalZ]

/-- The frame built at a cell away from a global axis through `(0, 0, 0)`. -/
theorem global_axis_frame (d : RotatingMotionCoeffs ℝ) (c : Vec ℝ)
    (haxis : axisVec d = globalX ∨ axisVec d = globalY ∨ axisVec d = globalZ)
    (horigin : rotCenter d = Vec.zero)
    (hperp : specPerp (axisVec d) (rotCenter d) c ≠ Vec.zero) :
    ∃ r, basis Real.sqrt d c = some (r, (axisVec d).cross r) ∧
      magSqr r = 1 ∧ r.dot (axisVec d) = 0 ∧ magSqr (axisVec d) = 1 := by
  obtain ⟨ha, hdot, hspec⟩ := global_axis_facts (axisVec d) c haxis
  rw [horigin, hspec] at hperp
  obtain ⟨r, hr⟩ := cRad_isSome _ _ hperp
  have hra : r.dot (axisVec d) = 0 := by
    rw [cRad_dot _ _ _ _ hr, hdot, zero_div]
  exact ⟨r, basis_of_orthogonal d c r hr ha hra, cRad_magSqr _ _ _ hr, hra, ha⟩

end Builder

/-! ## Evaluation at concrete cells -/

section Evaluation

theorem mag_eval (v : Vec ℝ) (m : ℝ) (hm : 0 ≤ m) (h : magSqr v = m * m) :
    mag Real.sqrt v = m := by
  unfold mag
  rw [h]
  exact Real.sqrt_mul_self hm

/-- Evaluation of the loop body's basis at a cell, given the two magnitudes. -/
theorem basis_eval (d : RotatingMotionCoeffs ℝ) (c r t : Vec ℝ) (m n : ℝ)
    (hm : 0 < m) (hn : 0 < n)
    (h1 : magSqr (radialPart (axisVec d) c) = m * m)
    (hr : r = ⟨(radialPart (axisVec d) c).x / m, (radialPart (axisVec d) c).y / m,
      (radialPart (axisVec d) c).z / m⟩)
    (h2 : magSqr ((axisVec d).cross r) = n * n)
    (ht : t = ⟨((axisVec d).cross r).x / n, ((axisVec d).cross r).y / n,
      ((axisVec d).cross r).z / n⟩) :
    basis Real.sqrt d c = some (r, t) := by
  rw [basis_eq_some_iff]
  constructor
  · unfold cRad
    rw [mag_eval _ m hm.le h1, divide_of_ne_zero _ hm.ne', hr]
  · rw [mag_eval _ n hn.le h2, divide_of_ne_zero _ hn.ne', ht]

/-- The basis at `c = (1, 0, 0)` for the axis `(0, 0, 1)` (scenario S1). -/
theorem basis_S1 (o : Vec ℝ) :
    basis Real.sqrt ⟨globalZ, o⟩ ⟨1, 0, 0⟩ = some (⟨1, 0, 0⟩, ⟨0, 1, 0⟩) := by
  apply basis_eval _ _ _ _ 1 1 one_pos one_pos <;>
    simp [axisVec, globalZ, radialPart, cmptMultiply, Vec.sub, Vec.cross, magSqr]

/-- The basis at `c = (-1, 0, 0)` for the axis `(0, 0, 1)`. -/
theorem basis_minus_x (o : Vec ℝ) :
    basis Real.sqrt ⟨globalZ, o⟩ ⟨-1, 0, 0⟩ = some (⟨-1, 0, 0⟩, ⟨0, -1, 0⟩) := by
  apply basis_eval _ _ _ _ 1 1 one_pos one_pos <;>
    simp [axisVec, globalZ, radialPart, cmptMultiply, Vec.sub, Vec.cross, magSqr]

/-- The basis at `c = (3, 0, 2)` for the axis `(0, 0, -1)`. -/
theorem basis_reversed_axis (o : Vec ℝ) :
    basis Real.sqrt ⟨⟨0, 0, -1⟩, o⟩ ⟨3, 0, 2⟩ = some (⟨3 / 5, 0, 4 / 5⟩, ⟨0, -1, 0⟩) := by
  apply basis_eval _ _ _ _ 5 (3 / 5) (by norm_num) (by norm_num) <;>
    norm_num [axisVec, radialPart, cmptMultiply, Vec.sub, Vec.cross, magSqr]

/-- The basis at `c = (3, 0, -4)` for the axis `(0, 0, 2)`. -/
theorem basis_double_axis_off_plane (o : Vec ℝ) :
    basis Real.sqrt ⟨⟨0, 0, 2⟩, o⟩ ⟨3, 0, -4⟩ = some (⟨3 / 5, 0, 4 / 5⟩, ⟨0, 1, 0⟩) := by
  apply basis_eval _ _ _ _ 5 (6 / 5) (by norm_num) (by norm_num) <;>
    norm_num [axisVec, radialPart, cmptMultiply, Vec.sub, Vec.cross, magSqr]

theorem specPerp_S1 : specPerp (globalZ : Vec ℝ) Vec.zero ⟨1, 0, 0⟩ = ⟨1, 0, 0⟩ := by
  simp [specPerp, globalZ, Vec.zero, Vec.sub, Vec.smul, Vec.dot]

theorem specPerp_S1_ne : specPerp (globalZ : Vec ℝ) Vec.zero ⟨1, 0, 0⟩ ≠ Vec.zero := by
  rw [specPerp_S1]
  intro h
  have hx := congrArg Vec.x h
  simp [Vec.zero] at hx

theorem specPerp_reversed_axis :
    specPerp (⟨0, 0, -1⟩ : Vec ℝ) ⟨0, 0, 0⟩ ⟨3, 0, 2⟩ = ⟨3, 0, 0⟩ := by
  norm_num [specPerp, Vec.sub, Vec.smul, Vec.dot]

theorem vec_ne_zero_of_z (v : Vec ℝ) (h : v.z ≠ 0) : v ≠ Vec.zero := by
  intro h0
  apply h
  rw [h0]
  rfl

/-- The tangential vector of a built basis is the value of `cTheta`. -/
theorem cTheta_of_basis (d : RotatingMotionCoeffs ℝ) (c r t : Vec ℝ)
    (h : basis Real.sqrt d c = some (r, t)) :
    cTheta Real.sqrt (axisVec d) c = some t := by
  obtain ⟨hr, ht⟩ := (basis_eq_some_iff d c r t).1 h
  exact (cTheta_eq_some_iff _ _ _).2 ⟨r, hr, ht⟩

/-- The basis at `c = (0, 0, 1)` for the axis `(1, 0, 0)` (scenario S4). -/
theorem basis_S4 (o : Vec ℝ) :
    basis Real.sqrt ⟨⟨1, 0, 0⟩, o⟩ ⟨0, 0, 1⟩ = some (⟨0, 0, 1⟩, ⟨0, -1, 0⟩) := by
  apply basis_eval _ _ _ _ 1 1 one_pos one_pos <;>
    norm_num [axisVec, radialPart, cmptMultiply, Vec.sub, Vec.cross, magSqr]

theorem globalX_ne_globalY : (globalX : Vec ℝ) ≠ globalY := by
  intro h
  have hx := congrArg Vec.x h
  simp [globalX, globalY] at hx

theorem globalX_ne_globalZ : (globalX : Vec ℝ) ≠ globalZ := by
  intro h
  have hx := congrArg Vec.x h
  simp [globalX, globalZ] at hx

theorem globalY_ne_globalZ : (globalY : Vec ℝ) ≠ globalZ := by
  intro h
  have hy := congrArg Vec.y h
  simp [globalY, globalZ] at hy

/-- The seed direction as one nested choice: the three tests of lines 100-102
exclude one another. -/
theorem dirVec_eq (a : Vec ℝ) :
    dirVec a =
      if a = globalX then globalY
      else if a = globalY then globalZ
      else if a = globalZ then globalX
      else a := by
  unfold dirVec
  by_cases hX : a = globalX
  · subst hX
    simp [globalX_ne_globalY, globalX_ne_globalZ]
  · by_cases hY : a = globalY
    · subst hY
      simp [globalY_ne_globalZ, hX]
    · by_cases hZ : a = globalZ
      · subst hZ
        simp [hX, hY]
      · simp [hX, hY, hZ]

/-- Where both divisors are non-zero the basis is built, its vectors have unit
magnitude and the tangential one is orthogonal to the axis and to the radial
one. -/
theorem basis_of_defined (d : RotatingMotionCoeffs ℝ) (c : Vec ℝ)
    (hrad : radialPart (axisVec d) c ≠ Vec.zero)
    (hcross : ∀ r, cRad Real.sqrt (axisVec d) c = some r →
      (axisVec d).cross r ≠ Vec.zero) :
    ∃ r t, cRad Real.sqrt (axisVec d) c = some r ∧
      cTheta Real.sqrt (axisVec d) c = some t ∧
      mag Real.sqrt r = 1 ∧ mag Real.sqrt t = 1 ∧ t.dot (axisVec d) = 0 ∧
      t.dot r = 0 := by
  obtain ⟨r, hr⟩ := cRad_isSome (axisVec d) c hrad
  have hm : mag Real.sqrt ((axisVec d).cross r) ≠ 0 := fun h =>
    hcross r hr ((mag_eq_zero_iff _).1 h)
  obtain ⟨t, ht⟩ : ∃ t, ((axisVec d).cross r).divide
      (mag Real.sqrt ((axisVec d).cross r)) = some t :=
    ⟨_, divide_of_ne_zero _ hm⟩
  have hb : basis Real.sqrt d c = some (r, t) :=
    (basis_eq_some_iff _ _ _ _).2 ⟨hr, ht⟩
  obtain ⟨hr1, ht1, hta, htr, _, _⟩ := basis_facts _ c r t hb
  exact ⟨r, t, hr, cTheta_of_basis _ _ _ _ hb, mag_eq_one_of_magSqr _ hr1,
    mag_eq_one_of_magSqr _ ht1, hta, htr⟩

theorem cross_self (a : Vec ℝ) : a.cross a = Vec.zero := by
  simp only [Vec.cross, Vec.zero]
  ext <;> ring

end Evaluation

/-! ## The constructor of `cyl` and the loop -/

section Loop

/-- A zero axis passes the constructor: its normalisation divides by zero. -/
theorem construct_zero_axis (o dir : Vec ℝ) (b : Bool) :
    cylindricalCS.construct Real.sqrt o Vec.zero dir b = some ⟨o, Vec.zero, dir, b⟩ := by
  unfold cylindricalCS.construct
  rw [(mag_eq_zero_iff _).2 rfl, divide_zero]

/-- A unit direction orthogonal to a unit axis passes the constructor. -/
theorem construct_of_orthonormal (o a dir : Vec ℝ) (b : Bool)
    (ha : magSqr a = 1) (hd : magSqr dir = 1) (hda : dir.dot a = 0) :
    cylindricalCS.construct Real.sqrt o a dir b = some ⟨o, a, dir, b⟩ := by
  unfold cylindricalCS.construct
  rw [mag_eq_one_of_magSqr a ha, divide_of_ne_zero _ one_ne_zero]
  have ha1 : (⟨a.x / 1, a.y / 1, a.z / 1⟩ : Vec ℝ) = a := by
    ext <;> simp
  simp only [ha1, hda]
  have hb : dir.sub (Vec.smul 0 a) = dir := by
    ext <;> simp [Vec.sub, Vec.smul]
  rw [hb, mag_eq_one_of_magSqr dir hd, if_neg]
  norm_num [SMALL]

theorem dirVec_globalX : dirVec (globalX : Vec ℝ) = globalY := by
  rw [dirVec_eq, if_pos rfl]

theorem dirVec_globalY : dirVec (globalY : Vec ℝ) = globalZ := by
  rw [dirVec_eq, if_neg (Ne.symm globalX_ne_globalY), if_pos rfl]

theorem dirVec_globalZ : dirVec (globalZ : Vec ℝ) = globalX := by
  rw [dirVec_eq, if_neg (Ne.symm globalX_ne_globalZ),
    if_neg (Ne.symm globalY_ne_globalZ), if_pos rfl]

/-- The seed direction of a global axis passes the constructor. -/
theorem construct_dirVec_global (o a : Vec ℝ) (b : Bool)
    (ha : a = globalX ∨ a = globalY ∨ a = globalZ) :
    cylindricalCS.construct Real.sqrt o a (dirVec a) b = some ⟨o, a, dirVec a, b⟩ := by
  rcases ha with rfl | rfl | rfl
  · rw [dirVec_globalX]
    apply construct_of_orthonormal <;> simp [magSqr, Vec.dot, globalX, globalY]
  · rw [dirVec_globalY]
    apply construct_of_orthonormal <;> simp [magSqr, Vec.dot, globalY, globalZ]
  · rw [dirVec_globalZ]
    apply construct_of_orthonormal <;> simp [magSqr, Vec.dot, globalX, globalZ]

theorem timeStep_eq (flag : Bool) (d : RotatingMotionCoeffs ℝ) (t : TimeDir ℝ) :
    timeStep Real.sqrt flag d t =
      (cylindricalCS.construct Real.sqrt (rotCenter d) (axisVec d)
        (dirVec (axisVec d)) false).map
        fun cyl => loopBody Real.sqrt cyl flag d t := rfl

/-- When the constructor accepts, every time directory gets its pass and the
exit code is `0`. -/
theorem runFrom_of_some (flag : Bool) (d : RotatingMotionCoeffs ℝ)
    (cyl : cylindricalCS ℝ)
    (h : cylindricalCS.construct Real.sqrt (rotCenter d) (axisVec d)
      (dirVec (axisVec d)) false = some cyl)
    (timeDirs : List (TimeDir ℝ)) (done : List (StepResult ℝ)) :
    runFrom Real.sqrt flag d timeDirs done =
      ⟨done ++ timeDirs.map (loopBody Real.sqrt cyl flag d), 0⟩ := by
  induction timeDirs generalizing done with
  | nil => simp [runFrom]
  | cons t rest ih =>
    have ht : timeStep Real.sqrt flag d t = some (loopBody Real.sqrt cyl flag d t) := by
      rw [timeStep_eq, h]
      rfl
    simp only [runFrom, ht]
    rw [ih]
    simp

/-- The cell centre `(0, 0, 5)` is off the axis `(0, 0, 1)` through the origin
`(2, 0, 0)`. -/
theorem specPerp_shifted_ne :
    specPerp (globalZ : Vec ℝ) ⟨2, 0, 0⟩ ⟨0, 0, 5⟩ ≠ Vec.zero := by
  intro h
  have hx := congrArg Vec.x h
  norm_num [specPerp, globalZ, Vec.zero, Vec.sub, Vec.smul, Vec.dot] at hx

/-- At the cell centre `(0, 0, 5)` the divisor of line 136 is zero for the axis
`(0, 0, 1)`, whatever the origin. -/
theorem cRad_shifted (o : Vec ℝ) :
    cRad Real.sqrt (axisVec ⟨globalZ, o⟩) (⟨0, 0, 5⟩ : Vec ℝ) = none := by
  rw [cRad_eq_none_iff]
  simp [radialPart, axisVec, globalZ, cmptMultiply, Vec.sub, Vec.zero]

theorem basis_shifted (o : Vec ℝ) :
    basis Real.sqrt ⟨globalZ, o⟩ (⟨0, 0, 5⟩ : Vec ℝ) = none := by
  simp [basis, cRad_shifted]

theorem convert_shifted (o U : Vec ℝ) :
    convert Real.sqrt ⟨globalZ, o⟩ (⟨0, 0, 5⟩ : Vec ℝ) U = none := by
  simp [convert, Ucyl, cRad_shifted]

theorem cTheta_shifted (o : Vec ℝ) :
    cTheta Real.sqrt (axisVec ⟨globalZ, o⟩) (⟨0, 0, 5⟩ : Vec ℝ) = none := by
  simp [cTheta, cRad_shifted]

/-- A pass of the loop with the axis `(0, 0, 1)` gets past the constructor. -/
theorem timeStep_globalZ (flag : Bool) (o : Vec ℝ) (t : TimeDir ℝ) :
    timeStep Real.sqrt flag ⟨globalZ, o⟩ t =
      some (loopBody Real.sqrt ⟨o, globalZ, dirVec globalZ, false⟩ flag
        ⟨globalZ, o⟩ t) := by
  rw [timeStep_eq,
    construct_dirVec_global (rotCenter ⟨globalZ, o⟩) (axisVec ⟨globalZ, o⟩) false
      (Or.inr (Or.inr rfl))]
  rfl

end Loop

/-! ## The radial vector and the projector (C1, C2) -/

section Claims

/-- C1 (radial basis against the reference), evaluated where the program
departs from it.  For the unit axis `(0, 0, -1)`, origin `(0, 0, 0)` and cell
centre `(3, 0, 2)` the program's `cRad` is `(3/5, 0, 4/5)` while the reference
`perp / |perp|` is `(1, 0, 0)`; for the axis `(0, 0, 1)`, origin `(2, 0, 0)` and
cell centre `(1, 0, 0)` the program's `cRad` is `(1, 0, 0)` while the reference
is `(-1, 0, 0)`. -/
theorem cRad_departs_from_reference :
    (cRad Real.sqrt (axisVec ⟨⟨0, 0, -1⟩, ⟨0, 0, 0⟩⟩) ⟨3, 0, 2⟩ = some ⟨3 / 5, 0, 4 / 5⟩ ∧
      specRad Real.sqrt (⟨0, 0, -1⟩ : Vec ℝ) ⟨0, 0, 0⟩ ⟨3, 0, 2⟩ = some ⟨1, 0, 0⟩) ∧
    (cRad Real.sqrt (axisVec ⟨⟨0, 0, 1⟩, ⟨2, 0, 0⟩⟩) ⟨1, 0, 0⟩ = some ⟨1, 0, 0⟩ ∧
      specRad Real.sqrt (⟨0, 0, 1⟩ : Vec ℝ) ⟨2, 0, 0⟩ ⟨1, 0, 0⟩ = some ⟨-1, 0, 0⟩) := by
  refine ⟨⟨?_, ?_⟩, ?_, ?_⟩
  · exact ((basis_eq_some_iff _ _ _ _).1 (basis_reversed_axis ⟨0, 0, 0⟩)).1
  · unfold specRad
    rw [specPerp_reversed_axis, mag_eval _ 3 (by norm_num) (by norm_num [magSqr]),
      divide_of_ne_zero _ (by norm_num)]
    norm_num
  · exact ((basis_eq_some_iff _ _ _ _).1 (basis_S1 ⟨2, 0, 0⟩)).1
  · have hp : specPerp (⟨0, 0, 1⟩ : Vec ℝ) ⟨2, 0, 0⟩ ⟨1, 0, 0⟩ = ⟨-1, 0, 0⟩ := by
      norm_num [specPerp, Vec.sub, Vec.smul, Vec.dot]
    unfold specRad
    rw [hp, mag_eval _ 1 (by norm_num) (by norm_num [magSqr]),
      divide_of_ne_zero _ (by norm_num)]
    norm_num

/-- C2 (projector formula): at every cell and for every Cartesian velocity
`U`, the value written to `Ucyl` is, in this order, `(U . cRad, U . cTheta,
U . axisVec)` for the basis vectors built at that cell, and it exists exactly
when they do; in particular its third component is `U . axisVec`. -/
theorem Ucyl_components (d : RotatingMotionCoeffs ℝ) (c U : Vec ℝ) :
    convert Real.sqrt d c U =
        (basis Real.sqrt d c).map
          (fun b => (⟨U.dot b.1, U.dot b.2, U.dot (axisVec d)⟩ : Vec ℝ)) ∧
      (convert Real.sqrt d c U).map Vec.z =
        (basis Real.sqrt d c).map (fun _ => U.dot (axisVec d)) := by
  rw [convert_eq]
  refine ⟨rfl, ?_⟩
  cases basis Real.sqrt d c <;> rfl

/-! ## Orthonormality and norm preservation (C3, C4) -/

/-- C3 (orthonormality), evaluated where the program departs from it.  For the
non-zero axis `(0, 0, 1)`, the origin `(2, 0, 0)` and the cell centre
`(0, 0, 5)`, which is away from the axis through the origin, the divisor of
line 136 is zero: the pass gets past the constructor of `cyl` and builds no
basis at that cell, so neither `|cRad| = 1` nor `|cTheta| = 1` holds there. -/
theorem orthonormality_fails_off_shifted_axis :
    (globalZ : Vec ℝ) ≠ Vec.zero ∧
      specPerp (globalZ : Vec ℝ) ⟨2, 0, 0⟩ ⟨0, 0, 5⟩ ≠ Vec.zero ∧
      basis Real.sqrt ⟨globalZ, ⟨2, 0, 0⟩⟩ (⟨0, 0, 5⟩ : Vec ℝ) = none ∧
      (timeStep Real.sqrt true ⟨globalZ, ⟨2, 0, 0⟩⟩ ⟨[(⟨0, 0, 5⟩ : Vec ℝ)], none⟩).map
          (fun s => s.written.map volVectorField.cells) = some [[none], [none]] := by
  refine ⟨vec_ne_zero_of_z _ (by norm_num [globalZ]), specPerp_shifted_ne,
    basis_shifted _, ?_⟩
  rw [timeStep_globalZ]
  simp [loopBody, cRad_shifted, cTheta_shifted]

/-- Orthonormality for the global axes: when the axis is one of
`(1, 0, 0)`, `(0, 1, 0)`, `(0, 0, 1)` and the origin is `(0, 0, 0)`, then at
every cell away from the axis the basis is built and satisfies `|cRad| = 1`,
`|cTheta| = 1`, `cRad . cTheta = 0`, `cRad . a = 0` and `cTheta . a = 0`. -/
theorem orthonormal_global_axis (d : RotatingMotionCoeffs ℝ) (c : Vec ℝ)
    (haxis : axisVec d = globalX ∨ axisVec d = globalY ∨ axisVec d = globalZ)
    (horigin : rotCenter d = Vec.zero)
    (hperp : specPerp (axisVec d) (rotCenter d) c ≠ Vec.zero) :
    ∃ r t, basis Real.sqrt d c = some (r, t) ∧
      mag Real.sqrt r = 1 ∧ mag Real.sqrt t = 1 ∧ r.dot t = 0 ∧
      r.dot (axisVec d) = 0 ∧ t.dot (axisVec d) = 0 := by
  obtain ⟨r, hb, _, hra, _⟩ := global_axis_frame d c haxis horigin hperp
  obtain ⟨hr1, ht1, hta, htr, _, _⟩ := basis_facts d c r _ hb
  exact ⟨r, _, hb, mag_eq_one_of_magSqr _ hr1, mag_eq_one_of_magSqr _ ht1,
    (dot_comm _ _).trans htr, hra, hta⟩

/-- Witness of `orthonormal_global_axis`: axis `(0, 0, 1)`, origin `(0, 0, 0)`,
cell centre `(1, 0, 0)`. -/
theorem orthonormal_global_axis_witness :
    specPerp (globalZ : Vec ℝ) Vec.zero ⟨1, 0, 0⟩ ≠ Vec.zero ∧
      ∃ r t, basis Real.sqrt ⟨globalZ, Vec.zero⟩ ⟨1, 0, 0⟩ = some (r, t) ∧
        mag Real.sqrt r = 1 ∧ mag Real.sqrt t = 1 ∧ r.dot t = 0 ∧
        r.dot (globalZ : Vec ℝ) = 0 ∧ t.dot (globalZ : Vec ℝ) = 0 :=
  ⟨specPerp_S1_ne,
    orthonormal_global_axis ⟨globalZ, Vec.zero⟩ ⟨1, 0, 0⟩ (Or.inr (Or.inr rfl)) rfl
      specPerp_S1_ne⟩

/-- C4 (norm preservation), evaluated where the program departs from it.  For
the axis `(0, 0, 1)`, the origin `(2, 0, 0)`, the cell centre `(0, 0, 5)`, which
is away from the axis through the origin, and `U = (1, 2, 3)`, the divisor of
line 136 is zero: the pass gets past the constructor of `cyl` and the written
`Ucyl` has no value at that cell, so `|Ucyl|^2 = |U|^2` does not hold there. -/
theorem norm_not_preserved_off_shifted_axis :
    specPerp (globalZ : Vec ℝ) ⟨2, 0, 0⟩ ⟨0, 0, 5⟩ ≠ Vec.zero ∧
      convert Real.sqrt ⟨globalZ, ⟨2, 0, 0⟩⟩ (⟨0, 0, 5⟩ : Vec ℝ) ⟨1, 2, 3⟩ = none ∧
      (timeStep Real.sqrt false ⟨globalZ, ⟨2, 0, 0⟩⟩
          ⟨[(⟨0, 0, 5⟩ : Vec ℝ)], some (⟨0, 1, -1, 0, 0, 0, 0⟩, [⟨1, 2, 3⟩])⟩).map
          (fun s => s.written.map volVectorField.cells) = some [[none]] := by
  refine ⟨specPerp_shifted_ne, convert_shifted _ _, ?_⟩
  rw [timeStep_globalZ]
  have hu : Ucyl Real.sqrt (axisVec ⟨globalZ, ⟨2, 0, 0⟩⟩) (⟨0, 0, 5⟩ : Vec ℝ)
      ⟨1, 2, 3⟩ = none := convert_shifted _ _
  simp [loopBody, hu]

/-- Norm preservation for the global axes: when the axis is one
of `(1, 0, 0)`, `(0, 1, 0)`, `(0, 0, 1)` and the origin is `(0, 0, 0)`, then at
every cell away from the axis and for every `U` a value of `Ucyl` is written
and `|Ucyl|^2 = |U|^2`. -/
theorem norm_preserved_global_axis (d : RotatingMotionCoeffs ℝ) (c U : Vec ℝ)
    (haxis : axisVec d = globalX ∨ axisVec d = globalY ∨ axisVec d = globalZ)
    (horigin : rotCenter d = Vec.zero)
    (hperp : specPerp (axisVec d) (rotCenter d) c ≠ Vec.zero) :
    ∃ u, convert Real.sqrt d c U = some u ∧ magSqr u = magSqr U := by
  obtain ⟨r, hb, hr1, hra, ha⟩ := global_axis_frame d c haxis horigin hperp
  refine ⟨_, by rw [convert_eq, hb]; rfl, ?_⟩
  simp only [project_eq, magSqr, Vec.dot, Vec.cross] at hr1 hra ha ⊢
  linear_combination
    (U.x * U.x + U.y * U.y + U.z * U.z
        - (U.x * r.x + U.y * r.y + U.z * r.z) * (U.x * r.x + U.y * r.y + U.z * r.z)) * ha
      + ((U.x * U.x + U.y * U.y + U.z * U.z)
            * ((axisVec d).x * (axisVec d).x + (axisVec d).y * (axisVec d).y
              + (axisVec d).z * (axisVec d).z)
          - (U.x * (axisVec d).x + U.y * (axisVec d).y + U.z * (axisVec d).z)
            * (U.x * (axisVec d).x + U.y * (axisVec d).y + U.z * (axisVec d).z)) * hr1
      + (2 * (U.x * (axisVec d).x + U.y * (axisVec d).y + U.z * (axisVec d).z)
            * (U.x * r.x + U.y * r.y + U.z * r.z)
          - (U.x * U.x + U.y * U.y + U.z * U.z)
            * (r.x * (axisVec d).x + r.y * (axisVec d).y + r.z * (axisVec d).z)) * hra

/-- Witness of `norm_preserved_global_axis`: axis `(0, 0, 1)`, origin
`(0, 0, 0)`, cell centre `(1, 0, 0)`, `U = (1, 2, 3)`. -/
theorem norm_preserved_global_axis_witness :
    specPerp (globalZ : Vec ℝ) Vec.zero ⟨1, 0, 0⟩ ≠ Vec.zero ∧
      ∃ u, convert Real.sqrt ⟨globalZ, Vec.zero⟩ ⟨1, 0, 0⟩ ⟨1, 2, 3⟩ = some u ∧
        magSqr u = magSqr (⟨1, 2, 3⟩ : Vec ℝ) :=
  ⟨specPerp_S1_ne,
    norm_preserved_global_axis ⟨globalZ, Vec.zero⟩ ⟨1, 0, 0⟩ ⟨1, 2, 3⟩
      (Or.inr (Or.inr rfl)) rfl specPerp_S1_ne⟩

/-! ## Cells on the axis (C5) -/

/-- C5, as stated, fails at its own scenario S5: for the axis `(0, 0, 1)`,
origin `(0, 0, 0)` and the cell centre `(0, 0, 5)` on the axis, the divisor
`mag(C - cmptMultiply(C, axisVec))` of line 136 is zero, so the division by
zero is reached: no `cRad`, no `cTheta` and, for `U = (1, 2, 3)`, no `Ucyl`
(in particular not `(0, 0, 3)`). -/
theorem axis_cell_has_no_sentinel :
    specPerp (globalZ : Vec ℝ) Vec.zero ⟨0, 0, 5⟩ = Vec.zero ∧
      mag Real.sqrt (radialPart (axisVec ⟨globalZ, Vec.zero⟩) (⟨0, 0, 5⟩ : Vec ℝ)) = 0 ∧
      cRad Real.sqrt (axisVec ⟨globalZ, Vec.zero⟩) (⟨0, 0, 5⟩ : Vec ℝ) = none ∧
      cTheta Real.sqrt (axisVec ⟨globalZ, Vec.zero⟩) (⟨0, 0, 5⟩ : Vec ℝ) = none ∧
      convert Real.sqrt ⟨globalZ, Vec.zero⟩ ⟨0, 0, 5⟩ ⟨1, 2, 3⟩ ≠ some ⟨0, 0, 3⟩ := by
  have hw : radialPart (axisVec ⟨globalZ, Vec.zero⟩) (⟨0, 0, 5⟩ : Vec ℝ) = Vec.zero := by
    simp [radialPart, axisVec, globalZ, cmptMultiply, Vec.sub, Vec.zero]
  have hr : cRad Real.sqrt (axisVec ⟨globalZ, Vec.zero⟩) (⟨0, 0, 5⟩ : Vec ℝ) = none :=
    (cRad_eq_none_iff _ _).2 hw
  refine ⟨?_, (mag_eq_zero_iff _).2 hw, hr, ?_, ?_⟩
  · simp [specPerp, globalZ, Vec.zero, Vec.sub, Vec.smul, Vec.dot]
  · simp [cTheta, hr]
  · simp [convert, Ucyl, hr]

/-- C5 amended (cells on the axis are not handled): when the axis is one of
`(1, 0, 0)`, `(0, 1, 0)`, `(0, 0, 1)` and the origin is `(0, 0, 0)`, then for
every cell on the axis (`perp = 0`) and every `U` the divisor of line 136 is
zero, so the basis builder divides by zero: neither `cRad` nor `cTheta` nor
`Ucyl` has a value at that cell, and no sentinel is produced. -/
theorem axis_cell_divides_by_zero (d : RotatingMotionCoeffs ℝ) (c U : Vec ℝ)
    (haxis : axisVec d = globalX ∨ axisVec d = globalY ∨ axisVec d = globalZ)
    (horigin : rotCenter d = Vec.zero)
    (hperp : specPerp (axisVec d) (rotCenter d) c = Vec.zero) :
    mag Real.sqrt (radialPart (axisVec d) c) = 0 ∧
      cRad Real.sqrt (axisVec d) c = none ∧ cTheta Real.sqrt (axisVec d) c = none ∧
      basis Real.sqrt d c = none ∧ convert Real.sqrt d c U = none := by
  obtain ⟨_, _, hspec⟩ := global_axis_facts (axisVec d) c haxis
  rw [horigin, hspec] at hperp
  have hr : cRad Real.sqrt (axisVec d) c = none := (cRad_eq_none_iff _ _).2 hperp
  refine ⟨(mag_eq_zero_iff _).2 hperp, hr, ?_, ?_, ?_⟩
  · simp [cTheta, hr]
  · simp [basis, hr]
  · simp [convert, Ucyl, hr]

/-- Witness of `axis_cell_divides_by_zero`: scenario S5, axis `(0, 0, 1)`,
origin `(0, 0, 0)`, cell centre `(0, 0, 5)`, `U = (1, 2, 3)`. -/
theorem axis_cell_divides_by_zero_witness :
    mag Real.sqrt (radialPart (axisVec ⟨globalZ, Vec.zero⟩) (⟨0, 0, 5⟩ : Vec ℝ)) = 0 ∧
      cRad Real.sqrt (axisVec ⟨globalZ, Vec.zero⟩) (⟨0, 0, 5⟩ : Vec ℝ) = none ∧
      cTheta Real.sqrt (axisVec ⟨globalZ, Vec.zero⟩) (⟨0, 0, 5⟩ : Vec ℝ) = none ∧
      basis Real.sqrt ⟨globalZ, Vec.zero⟩ (⟨0, 0, 5⟩ : Vec ℝ) = none ∧
      convert Real.sqrt ⟨globalZ, Vec.zero⟩ ⟨0, 0, 5⟩ ⟨1, 2, 3⟩ = none :=
  axis_cell_divides_by_zero ⟨globalZ, Vec.zero⟩ ⟨0, 0, 5⟩ ⟨1, 2, 3⟩
    (Or.inr (Or.inr rfl)) rfl
    (by simp [specPerp, axisVec, rotCenter, globalZ, Vec.zero, Vec.sub, Vec.smul, Vec.dot])

/-! ## Orientation of the frame (C6, C7) -/

/-- C6 (right-handedness): for every axis, every origin and every cell at which
`cRad` and `cTheta` are defined, `(cRad x cTheta) . a > 0`. -/
theorem basis_right_handed (d : RotatingMotionCoeffs ℝ) (c r t : Vec ℝ)
    (h : basis Real.sqrt d c = some (r, t)) :
    0 < (r.cross t).dot (axisVec d) := by
  obtain ⟨_, _, _, _, htriple, hpos⟩ := basis_facts d c r t h
  rw [htriple]
  exact hpos

/-- Witness of `basis_right_handed`: axis `(0, 0, 1)`, origin `(2, 0, 0)`, cell
centre `(1, 0, 0)`, where the basis is `(1, 0, 0)`, `(0, 1, 0)`. -/
theorem basis_right_handed_witness :
    basis Real.sqrt ⟨globalZ, ⟨2, 0, 0⟩⟩ ⟨1, 0, 0⟩ = some (⟨1, 0, 0⟩, ⟨0, 1, 0⟩) ∧
      0 < ((⟨1, 0, 0⟩ : Vec ℝ).cross ⟨0, 1, 0⟩).dot (axisVec ⟨globalZ, ⟨2, 0, 0⟩⟩) :=
  ⟨basis_S1 _, basis_right_handed ⟨globalZ, ⟨2, 0, 0⟩⟩ ⟨1, 0, 0⟩ _ _ (basis_S1 _)⟩

/-- C7 (handedness bound), evaluated where the program departs from it.  For
the non-zero configured axis `(0, 0, 1)`, the origin `(2, 0, 0)` and the cell
centre `(0, 0, 5)`, which is away from the axis through the origin, the divisor
of line 136 is zero: the pass gets past the constructor of `cyl` and builds no
basis at that cell, so there is no triple product above `1 - eps`. -/
theorem no_triple_product_off_shifted_axis :
    specPerp (globalZ : Vec ℝ) ⟨2, 0, 0⟩ ⟨0, 0, 5⟩ ≠ Vec.zero ∧
      (timeStep Real.sqrt false ⟨globalZ, ⟨2, 0, 0⟩⟩
          ⟨[(⟨0, 0, 5⟩ : Vec ℝ)], none⟩).isSome = true ∧
      basis Real.sqrt ⟨globalZ, ⟨2, 0, 0⟩⟩ (⟨0, 0, 5⟩ : Vec ℝ) = none ∧
      ¬ ∃ r t, basis Real.sqrt ⟨globalZ, ⟨2, 0, 0⟩⟩ (⟨0, 0, 5⟩ : Vec ℝ) = some (r, t) ∧
        (r.cross t).dot (globalZ : Vec ℝ) > 1 - eps := by
  refine ⟨specPerp_shifted_ne, ?_, basis_shifted _, ?_⟩
  · rw [timeStep_globalZ]
    rfl
  · rintro ⟨r, t, h, _⟩
    rw [basis_shifted] at h
    exact Option.noConfusion h

/-- Handedness bound for the global axes: when the axis is one of
`(1, 0, 0)`, `(0, 1, 0)`, `(0, 0, 1)` and the origin is `(0, 0, 0)`, then at
every cell away from the axis the basis is built and `(cRad x cTheta) . a`
equals `1`, so it exceeds `1 - eps` with `eps = 1e-12`. -/
theorem triple_product_global_axis (d : RotatingMotionCoeffs ℝ) (c : Vec ℝ)
    (haxis : axisVec d = globalX ∨ axisVec d = globalY ∨ axisVec d = globalZ)
    (horigin : rotCenter d = Vec.zero)
    (hperp : specPerp (axisVec d) (rotCenter d) c ≠ Vec.zero) :
    ∃ r t, basis Real.sqrt d c = some (r, t) ∧
      (r.cross t).dot (axisVec d) = 1 ∧ (r.cross t).dot (axisVec d) > 1 - eps := by
  obtain ⟨r, hb, _, _, _⟩ := global_axis_frame d c haxis horigin hperp
  obtain ⟨_, ht1, _, _, htriple, _⟩ := basis_facts d c r _ hb
  have h1 : (r.cross ((axisVec d).cross r)).dot (axisVec d) = 1 := by
    rw [htriple]
    exact mag_eq_one_of_magSqr _ ht1
  refine ⟨r, _, hb, h1, ?_⟩
  rw [h1]
  norm_num [eps]

/-- Witness of `triple_product_global_axis`: axis `(0, 0, 1)`, origin
`(0, 0, 0)`, cell centre `(1, 0, 0)`. -/
theorem triple_product_global_axis_witness :
    specPerp (globalZ : Vec ℝ) Vec.zero ⟨1, 0, 0⟩ ≠ Vec.zero ∧
      ∃ r t, basis Real.sqrt ⟨globalZ, Vec.zero⟩ ⟨1, 0, 0⟩ = some (r, t) ∧
        (r.cross t).dot (globalZ : Vec ℝ) = 1 ∧
        (r.cross t).dot (globalZ : Vec ℝ) > 1 - eps :=
  ⟨specPerp_S1_ne,
    triple_product_global_axis ⟨globalZ, Vec.zero⟩ ⟨1, 0, 0⟩ (Or.inr (Or.inr rfl)) rfl
      specPerp_S1_ne⟩

/-! ## The origin and the axis read from the configuration (C8, C9) -/

/-- C8 (the origin only translates cell centres), evaluated where the program
departs from it.  For the axis `(0, 0, 1)`, origin `o = (2, 0, 0)`, cell centre
`c = (1, 0, 0)` and translation `t = (-2, 0, 0)`, the basis built for `c + t`
with origin `o + t` is `(-1, 0, 0)`, `(0, -1, 0)`, while the basis built for `c`
with origin `o` is `(1, 0, 0)`, `(0, 1, 0)`: the origin never enters the
basis. -/
theorem basis_not_translation_invariant :
    basis Real.sqrt ⟨globalZ, (⟨2, 0, 0⟩ : Vec ℝ).add ⟨-2, 0, 0⟩⟩
        ((⟨1, 0, 0⟩ : Vec ℝ).add ⟨-2, 0, 0⟩) = some (⟨-1, 0, 0⟩, ⟨0, -1, 0⟩) ∧
      basis Real.sqrt ⟨globalZ, (⟨2, 0, 0⟩ : Vec ℝ)⟩ ⟨1, 0, 0⟩ =
        some (⟨1, 0, 0⟩, ⟨0, 1, 0⟩) := by
  refine ⟨?_, basis_S1 _⟩
  have hc : (⟨1, 0, 0⟩ : Vec ℝ).add ⟨-2, 0, 0⟩ = ⟨-1, 0, 0⟩ := by
    norm_num [Vec.add]
  rw [hc]
  exact basis_minus_x _

/-- C10 (rotation invariance), evaluated where the program departs from it.
For the axis `(0, 0, 1)`, the origin `(2, 0, 0)`, the cell centre `(0, 0, 5)`,
which is away from the axis through the origin, `U = (1, 0, 0)` and the angle
`pi / 2`, the divisor of line 136 is zero: the pass gets past the constructor
of `cyl`, and neither `U` nor the rotated velocity gets a value of `Ucyl` at
that cell, so no pair `(u_r, u_theta)` exists to be rotated. -/
theorem rotation_fails_off_shifted_axis :
    specPerp (globalZ : Vec ℝ) ⟨2, 0, 0⟩ ⟨0, 0, 5⟩ ≠ Vec.zero ∧
      (timeStep Real.sqrt false ⟨globalZ, ⟨2, 0, 0⟩⟩
          ⟨[(⟨0, 0, 5⟩ : Vec ℝ)], some (⟨0, 1, -1, 0, 0, 0, 0⟩, [⟨1, 0, 0⟩])⟩).isSome
        = true ∧
      convert Real.sqrt ⟨globalZ, ⟨2, 0, 0⟩⟩ (⟨0, 0, 5⟩ : Vec ℝ) ⟨1, 0, 0⟩ = none ∧
      convert Real.sqrt ⟨globalZ, ⟨2, 0, 0⟩⟩ (⟨0, 0, 5⟩ : Vec ℝ)
          (rotateAbout globalZ (Real.cos (Real.pi / 2)) (Real.sin (Real.pi / 2))
            ⟨1, 0, 0⟩) = none := by
  refine ⟨specPerp_shifted_ne, ?_, convert_shifted _ _, convert_shifted _ _⟩
  rw [timeStep_globalZ]
  rfl

/-- Rotation invariance for the global axes: when the axis is
one of `(1, 0, 0)`, `(0, 1, 0)`, `(0, 0, 1)` and the origin is `(0, 0, 0)`, then
at every cell away from the axis, for every `U` and every angle `phi`, with
`U'` the rotation of `U` about the axis by `phi`, both `Ucyl` and `Ucyl'` are
written, `Ucyl'.z = Ucyl.z`, `(u_r', u_theta')` is `(u_r, u_theta)` rotated as a
2-vector by `phi`, and `u_r'^2 + u_theta'^2 = u_r^2 + u_theta^2`. -/
theorem rotation_invariant_global_axis (d : RotatingMotionCoeffs ℝ) (c U : Vec ℝ)
    (phi : ℝ)
    (haxis : axisVec d = globalX ∨ axisVec d = globalY ∨ axisVec d = globalZ)
    (horigin : rotCenter d = Vec.zero)
    (hperp : specPerp (axisVec d) (rotCenter d) c ≠ Vec.zero) :
    ∃ u u', convert Real.sqrt d c U = some u ∧
      convert Real.sqrt d c
        (rotateAbout (axisVec d) (Real.cos phi) (Real.sin phi) U) = some u' ∧
      u'.z = u.z ∧
      u'.x = Real.cos phi * u.x - Real.sin phi * u.y ∧
      u'.y = Real.sin phi * u.x + Real.cos phi * u.y ∧
      u'.x * u'.x + u'.y * u'.y = u.x * u.x + u.y * u.y := by
  obtain ⟨r, hb, hr1, hra, ha⟩ := global_axis_frame d c haxis horigin hperp
  have hz : (project (axisVec d) r ((axisVec d).cross r)
      (rotateAbout (axisVec d) (Real.cos phi) (Real.sin phi) U)).z =
      (project (axisVec d) r ((axisVec d).cross r) U).z := by
    simp only [project_eq, rotateAbout, magSqr, Vec.dot, Vec.cross, Vec.add, Vec.smul]
      at hr1 hra ha ⊢
    linear_combination
      (((axisVec d).x * U.x + (axisVec d).y * U.y + (axisVec d).z * U.z)
        * (1 - Real.cos phi)) * ha
  have hx : (project (axisVec d) r ((axisVec d).cross r)
      (rotateAbout (axisVec d) (Real.cos phi) (Real.sin phi) U)).x =
      Real.cos phi * (project (axisVec d) r ((axisVec d).cross r) U).x -
        Real.sin phi * (project (axisVec d) r ((axisVec d).cross r) U).y := by
    simp only [project_eq, rotateAbout, magSqr, Vec.dot, Vec.cross, Vec.add, Vec.smul]
      at hr1 hra ha ⊢
    linear_combination
      (((axisVec d).x * U.x + (axisVec d).y * U.y + (axisVec d).z * U.z)
        * (1 - Real.cos phi)) * hra
  have hy : (project (axisVec d) r ((axisVec d).cross r)
      (rotateAbout (axisVec d) (Real.cos phi) (Real.sin phi) U)).y =
      Real.sin phi * (project (axisVec d) r ((axisVec d).cross r) U).x +
        Real.cos phi * (project (axisVec d) r ((axisVec d).cross r) U).y := by
    simp only [project_eq, rotateAbout, magSqr, Vec.dot, Vec.cross, Vec.add, Vec.smul]
      at hr1 hra ha ⊢
    linear_combination
      (Real.sin phi * (U.x * r.x + U.y * r.y + U.z * r.z)) * ha
        - (Real.sin phi
            * ((axisVec d).x * U.x + (axisVec d).y * U.y + (axisVec d).z * U.z)) * hra
  refine ⟨_, _, by rw [convert_eq, hb]; rfl, by rw [convert_eq, hb]; rfl, hz, hx, hy, ?_⟩
  rw [hx, hy]
  linear_combination
    ((project (axisVec d) r ((axisVec d).cross r) U).x
        * (project (axisVec d) r ((axisVec d).cross r) U).x
      + (project (axisVec d) r ((axisVec d).cross r) U).y
        * (project (axisVec d) r ((axisVec d).cross r) U).y)
      * Real.cos_sq_add_sin_sq phi

/-- Witness of `rotation_invariant_global_axis`: axis `(0, 0, 1)`, origin
`(0, 0, 0)`, cell centre `(1, 0, 0)`, `U = (1, 2, 3)`, angle `pi / 2`. -/
theorem rotation_invariant_global_axis_witness :
    specPerp (globalZ : Vec ℝ) Vec.zero ⟨1, 0, 0⟩ ≠ Vec.zero ∧
      ∃ u u', convert Real.sqrt ⟨globalZ, Vec.zero⟩ ⟨1, 0, 0⟩ ⟨1, 2, 3⟩ = some u ∧
        convert Real.sqrt ⟨globalZ, Vec.zero⟩ ⟨1, 0, 0⟩
          (rotateAbout globalZ (Real.cos (Real.pi / 2)) (Real.sin (Real.pi / 2))
            ⟨1, 2, 3⟩) = some u' ∧
        u'.z = u.z ∧
        u'.x = Real.cos (Real.pi / 2) * u.x - Real.sin (Real.pi / 2) * u.y ∧
        u'.y = Real.sin (Real.pi / 2) * u.x + Real.cos (Real.pi / 2) * u.y ∧
        u'.x * u'.x + u'.y * u'.y = u.x * u.x + u.y * u.y :=
  ⟨specPerp_S1_ne,
    rotation_invariant_global_axis ⟨globalZ, Vec.zero⟩ ⟨1, 0, 0⟩ ⟨1, 2, 3⟩ (Real.pi / 2)
      (Or.inr (Or.inr rfl)) rfl specPerp_S1_ne⟩

/-! ## Scenario S4 and the seed direction (C11, C12, C13) -/

/-- C11, as stated, fails: for the axis `(1, 0, 0)`, origin `(0, 0, 0)`, the
cell centre `(0, 0, 1)` and `U = (0, 1, 0)` the program gives
`cTheta = (0, -1, 0)` and `Ucyl = (0, -1, 0)`, not `(0, 1, 0)` and
`(0, 1, 0)`. -/
theorem scenario_S4_expectation_fails :
    cTheta Real.sqrt (axisVec ⟨⟨1, 0, 0⟩, ⟨0, 0, 0⟩⟩) (⟨0, 0, 1⟩ : Vec ℝ) ≠
        some ⟨0, 1, 0⟩ ∧
      convert Real.sqrt ⟨⟨1, 0, 0⟩, ⟨0, 0, 0⟩⟩ ⟨0, 0, 1⟩ (⟨0, 1, 0⟩ : Vec ℝ) ≠
        some ⟨0, 1, 0⟩ := by
  constructor
  · rw [cTheta_of_basis _ _ _ _ (basis_S4 ⟨0, 0, 0⟩)]
    intro h
    have hy := congrArg Vec.y (Option.some.inj h)
    norm_num at hy
  · rw [convert_eq, basis_S4]
    intro h
    have hy := congrArg Vec.y (Option.some.inj h)
    norm_num [project_eq, Vec.dot] at hy

/-- C11 amended (scenario S4): with the axis `(1, 0, 0)`, for which the seed
direction is `(0, 1, 0)`, origin `(0, 0, 0)`, a cell at `c = (0, 0, 1)` and
`U = (0, 1, 0)`, the program yields `cRad = (0, 0, 1)`, `cTheta = (0, -1, 0)`
and `Ucyl = (0, -1, 0)`. -/
theorem scenario_S4 :
    dirVec (axisVec ⟨⟨1, 0, 0⟩, ⟨0, 0, 0⟩⟩ : Vec ℝ) = ⟨0, 1, 0⟩ ∧
      cRad Real.sqrt (axisVec ⟨⟨1, 0, 0⟩, ⟨0, 0, 0⟩⟩) (⟨0, 0, 1⟩ : Vec ℝ) =
        some ⟨0, 0, 1⟩ ∧
      cTheta Real.sqrt (axisVec ⟨⟨1, 0, 0⟩, ⟨0, 0, 0⟩⟩) (⟨0, 0, 1⟩ : Vec ℝ) =
        some ⟨0, -1, 0⟩ ∧
      convert Real.sqrt ⟨⟨1, 0, 0⟩, ⟨0, 0, 0⟩⟩ ⟨0, 0, 1⟩ (⟨0, 1, 0⟩ : Vec ℝ) =
        some ⟨0, -1, 0⟩ := by
  refine ⟨?_, ((basis_eq_some_iff _ _ _ _).1 (basis_S4 ⟨0, 0, 0⟩)).1,
    cTheta_of_basis _ _ _ _ (basis_S4 ⟨0, 0, 0⟩), ?_⟩
  · have h := dirVec_eq (globalX : Vec ℝ)
    simpa [globalX, globalY, axisVec] using h
  · rw [convert_eq, basis_S4]
    norm_num [project_eq, Vec.dot, axisVec]

/-- C12 (seed picker policy): for every axis `a` the seed direction is
`(0, 1, 0)` if `a = (1, 0, 0)`, `(0, 0, 1)` if `a = (0, 1, 0)`, `(1, 0, 0)` if
`a = (0, 0, 1)`, and `a` itself for every other `a`; the three sequential tests
do not override one another. -/
theorem dirVec_policy (a : Vec ℝ) :
    dirVec a =
        (if a = ⟨1, 0, 0⟩ then ⟨0, 1, 0⟩
        else if a = ⟨0, 1, 0⟩ then ⟨0, 0, 1⟩
        else if a = ⟨0, 0, 1⟩ then ⟨1, 0, 0⟩
        else a) ∧
      dirVec (⟨1, 0, 0⟩ : Vec ℝ) = ⟨0, 1, 0⟩ ∧
      dirVec (⟨0, 1, 0⟩ : Vec ℝ) = ⟨0, 0, 1⟩ ∧
      dirVec (⟨0, 0, 1⟩ : Vec ℝ) = ⟨1, 0, 0⟩ := by
  have hX := dirVec_eq (globalX : Vec ℝ)
  have hY := dirVec_eq (globalY : Vec ℝ)
  have hZ := dirVec_eq (globalZ : Vec ℝ)
  rw [if_pos rfl] at hX
  rw [if_neg (Ne.symm globalX_ne_globalY), if_pos rfl] at hY
  rw [if_neg (Ne.symm globalX_ne_globalZ), if_neg (Ne.symm globalY_ne_globalZ),
    if_pos rfl] at hZ
  exact ⟨dirVec_eq a, hX, hY, hZ⟩

/-- C13, as stated, fails: for the non-zero axis `(1, 1, 0)` the seed
direction is the axis itself, so `a x d` is the zero vector and `|a x d| = 0`. -/
theorem seed_parallel_for_general_axis :
    (⟨1, 1, 0⟩ : Vec ℝ) ≠ Vec.zero ∧
      dirVec (⟨1, 1, 0⟩ : Vec ℝ) = ⟨1, 1, 0⟩ ∧
      (⟨1, 1, 0⟩ : Vec ℝ).cross (dirVec ⟨1, 1, 0⟩) = Vec.zero ∧
      mag Real.sqrt ((⟨1, 1, 0⟩ : Vec ℝ).cross (dirVec ⟨1, 1, 0⟩)) = 0 := by
  have hd : dirVec (⟨1, 1, 0⟩ : Vec ℝ) = ⟨1, 1, 0⟩ := by
    rw [dirVec_eq]
    simp [globalX, globalY, globalZ]
  refine ⟨?_, hd, ?_, ?_⟩
  · intro h
    have hx := congrArg Vec.x h
    simp [Vec.zero] at hx
  · rw [hd, cross_self]
  · rw [hd, cross_self]
    exact (mag_eq_zero_iff _).2 rfl

/-- C13 amended (seed picker contract): for every axis `a`, the seed direction
`d` satisfies `|a x d| > 0` exactly when `a` is one of `(1, 0, 0)`, `(0, 1, 0)`,
`(0, 0, 1)`; for every other axis `d` is `a` itself and `|a x d| = 0`. -/
theorem seed_not_parallel_iff (a : Vec ℝ) :
    (0 < mag Real.sqrt (a.cross (dirVec a)) ↔
        (a = globalX ∨ a = globalY ∨ a = globalZ)) ∧
      ((¬ (a = globalX ∨ a = globalY ∨ a = globalZ)) ↔
        (dirVec a = a ∧ mag Real.sqrt (a.cross (dirVec a)) = 0)) := by
  have hone : ∀ v : Vec ℝ, magSqr v = 1 → 0 < mag Real.sqrt v := by
    intro v hv
    rw [mag_eq_one_of_magSqr v hv]
    exact one_pos
  by_cases hX : a = globalX
  · subst hX
    have hd : dirVec (globalX : Vec ℝ) = globalY := by
      rw [dirVec_eq, if_pos rfl]
    have hp : 0 < mag Real.sqrt ((globalX : Vec ℝ).cross (dirVec globalX)) := by
      rw [hd]
      exact hone _ (by simp [magSqr, Vec.cross, globalX, globalY])
    exact ⟨⟨fun _ => Or.inl rfl, fun _ => hp⟩,
      ⟨fun h => absurd (Or.inl rfl) h, fun h => absurd h.2 hp.ne'⟩⟩
  · by_cases hY : a = globalY
    · subst hY
      have hd : dirVec (globalY : Vec ℝ) = globalZ := by
        rw [dirVec_eq, if_neg hX, if_pos rfl]
      have hp : 0 < mag Real.sqrt ((globalY : Vec ℝ).cross (dirVec globalY)) := by
        rw [hd]
        exact hone _ (by simp [magSqr, Vec.cross, globalY, globalZ])
      exact ⟨⟨fun _ => Or.inr (Or.inl rfl), fun _ => hp⟩,
        ⟨fun h => absurd (Or.inr (Or.inl rfl)) h, fun h => absurd h.2 hp.ne'⟩⟩
    · by_cases hZ : a = globalZ
      · subst hZ
        have hd : dirVec (globalZ : Vec ℝ) = globalX := by
          rw [dirVec_eq, if_neg hX, if_neg hY, if_pos rfl]
        have hp : 0 < mag Real.sqrt ((globalZ : Vec ℝ).cross (dirVec globalZ)) := by
          rw [hd]
          exact hone _ (by simp [magSqr, Vec.cross, globalX, globalZ])
        exact ⟨⟨fun _ => Or.inr (Or.inr rfl), fun _ => hp⟩,
          ⟨fun h => absurd (Or.inr (Or.inr rfl)) h, fun h => absurd h.2 hp.ne'⟩⟩
      · have hd : dirVec a = a := by
          rw [dirVec_eq, if_neg hX, if_neg hY, if_neg hZ]
        have hm : mag Real.sqrt (a.cross (dirVec a)) = 0 := by
          rw [hd, cross_self]
          exact (mag_eq_zero_iff _).2 rfl
        have hnot : ¬ (a = globalX ∨ a = globalY ∨ a = globalZ) := by
          rintro (h | h | h)
          · exact hX h
          · exact hY h
          · exact hZ h
        refine ⟨⟨fun h => ?_, fun h => absurd h hnot⟩, ⟨fun _ => ⟨hd, hm⟩, fun _ => hnot⟩⟩
        rw [hm] at h
        exact absurd h (lt_irrefl _)

/-! ## The loop over the time steps (C14, C15, C16, C17) -/

/-- C15, as stated, fails: with the zero vector as axis, a set flag and one time
directory holding the cell centre `(1, 0, 0)` and no `U`, `main` does not fail
with `ConfigValue`: it returns the run with exit code `0`, whose single pass
computed `cRad = (1, 0, 0)` and wrote `cRad` and `cTheta`. -/
theorem zero_axis_not_rejected :
    main Real.sqrt true (DynamicMeshDict.coeffs ⟨Vec.zero, Vec.zero⟩)
        [⟨[(⟨1, 0, 0⟩ : Vec ℝ)], none⟩] ≠ Except.error ConfigError.ConfigValue ∧
      main Real.sqrt true (DynamicMeshDict.coeffs ⟨Vec.zero, Vec.zero⟩)
        [⟨[(⟨1, 0, 0⟩ : Vec ℝ)], none⟩] =
        Except.ok (run Real.sqrt true ⟨Vec.zero, Vec.zero⟩ [⟨[⟨1, 0, 0⟩], none⟩]) ∧
      (run Real.sqrt true ⟨Vec.zero, Vec.zero⟩
        [⟨[(⟨1, 0, 0⟩ : Vec ℝ)], none⟩]).exitCode = 0 ∧
      (run Real.sqrt true ⟨Vec.zero, Vec.zero⟩
        [⟨[(⟨1, 0, 0⟩ : Vec ℝ)], none⟩]).steps.map
          (fun s => s.written.map volVectorField.name) =
        [[FieldName.cRad, FieldName.cTheta]] ∧
      (run Real.sqrt true ⟨Vec.zero, Vec.zero⟩
        [⟨[(⟨1, 0, 0⟩ : Vec ℝ)], none⟩]).steps.map (fun s => s.cRad.cells) =
        [[some ⟨1, 0, 0⟩]] := by
  have hc := construct_zero_axis (rotCenter (⟨Vec.zero, Vec.zero⟩ : RotatingMotionCoeffs ℝ))
    (dirVec (axisVec (⟨Vec.zero, Vec.zero⟩ : RotatingMotionCoeffs ℝ))) false
  have hrun : run Real.sqrt true (⟨Vec.zero, Vec.zero⟩ : RotatingMotionCoeffs ℝ)
      [⟨[(⟨1, 0, 0⟩ : Vec ℝ)], none⟩] =
      ⟨[] ++ [(⟨[(⟨1, 0, 0⟩ : Vec ℝ)], none⟩ : TimeDir ℝ)].map
        (loopBody Real.sqrt _ true ⟨Vec.zero, Vec.zero⟩), 0⟩ :=
    runFrom_of_some true _ _ hc _ []
  refine ⟨?_, rfl, ?_, ?_, ?_⟩
  · intro h
    simp [main, readConfig] at h
  · rw [hrun]
  · rw [hrun]
    rfl
  · have hr : cRad Real.sqrt (Vec.zero : Vec ℝ) ⟨1, 0, 0⟩ = some ⟨1, 0, 0⟩ := by
      unfold cRad
      have hw : radialPart (Vec.zero : Vec ℝ) ⟨1, 0, 0⟩ = ⟨1, 0, 0⟩ := by
        simp [radialPart, cmptMultiply, Vec.sub, Vec.zero]
      rw [hw, mag_eval _ 1 zero_le_one (by simp [magSqr]),
        divide_of_ne_zero _ one_ne_zero]
      simp
    rw [hrun]
    simp [loopBody, axisVec, hr]

/-- C15 amended (a zero axis is not rejected): if the axis read from the
configuration is the zero vector, `main` returns the run over all the selected
time directories (for no document does it fail with `ConfigValue`); at every
cell the divisor `mag(axisVec ^ cRad)` of `cTheta` is zero, so `cTheta` and
`Ucyl` have no value. -/
theorem zero_axis_is_processed (saveUnitVectors : Bool) (o C U : Vec ℝ)
    (doc : DynamicMeshDict ℝ) (timeDirs : List (TimeDir ℝ)) :
    main Real.sqrt saveUnitVectors (DynamicMeshDict.coeffs ⟨Vec.zero, o⟩) timeDirs =
        Except.ok (run Real.sqrt saveUnitVectors ⟨Vec.zero, o⟩ timeDirs) ∧
      (run Real.sqrt saveUnitVectors ⟨Vec.zero, o⟩ timeDirs).steps.length =
        timeDirs.length ∧
      main Real.sqrt saveUnitVectors doc timeDirs ≠
        Except.error ConfigError.ConfigValue ∧
      cTheta Real.sqrt (axisVec ⟨Vec.zero, o⟩) C = none ∧
      convert Real.sqrt ⟨Vec.zero, o⟩ C U = none := by
  have ht : cTheta Real.sqrt (axisVec ⟨Vec.zero, o⟩) C = none := by
    unfold cTheta
    cases cRad Real.sqrt (axisVec ⟨Vec.zero, o⟩) C with
    | none => rfl
    | some r =>
      have hz : (axisVec ⟨Vec.zero, o⟩ : Vec ℝ).cross r = Vec.zero := by
        simp only [axisVec, Vec.cross, Vec.zero]
        ext <;> ring
      rw [Option.some_bind, hz, (mag_eq_zero_iff _).2 rfl]
      exact divide_zero _
  have hc := construct_zero_axis (rotCenter (⟨Vec.zero, o⟩ : RotatingMotionCoeffs ℝ))
    (dirVec (axisVec (⟨Vec.zero, o⟩ : RotatingMotionCoeffs ℝ))) false
  refine ⟨rfl, ?_, ?_, ht, ?_⟩
  · unfold run
    rw [runFrom_of_some saveUnitVectors _ _ hc]
    simp
  · cases doc <;> simp [main, readConfig]
  · unfold convert Ucyl
    rw [ht]
    cases cRad Real.sqrt (axisVec ⟨Vec.zero, o⟩) C <;> rfl

/-- C16, as stated, fails: for a field `U` that carries the dimensions
`(0, 2, -2, 0, 0, 0, 0)`, the written `Ucyl` carries `(0, 1, -1, 0, 0, 0, 0)`. -/
theorem Ucyl_dimensions_differ :
    (timeStep Real.sqrt false ⟨globalZ, Vec.zero⟩
        ⟨[(⟨1, 0, 0⟩ : Vec ℝ)], some (⟨0, 2, -2, 0, 0, 0, 0⟩, [⟨1, 0, 0⟩])⟩).map
          (fun s => s.written.map volVectorField.dimensions) =
        some [⟨0, 1, -1, 0, 0, 0, 0⟩] ∧
      (⟨0, 1, -1, 0, 0, 0, 0⟩ : dimensionSet) ≠ ⟨0, 2, -2, 0, 0, 0, 0⟩ := by
  refine ⟨?_, by decide⟩
  rw [timeStep_globalZ]
  rfl

/-- C16 amended (dimensions of `Ucyl`): for every input field `U`, whatever
physical dimensions it carries, the written `Ucyl` carries the dimensions of a
velocity, `dimensionSet(0,1,-1,0,0,0,0)`; they are the dimensions of `U` exactly
when `U` carries the dimensions of a velocity. -/
theorem Ucyl_dimensions_velocity (saveUnitVectors : Bool)
    (d : RotatingMotionCoeffs ℝ) (C : List (Vec ℝ)) (dims : dimensionSet)
    (cells : List (Vec ℝ)) (cyl : cylindricalCS ℝ) :
    (loopBody Real.sqrt cyl saveUnitVectors d ⟨C, some (dims, cells)⟩).Ucyl.map
        volVectorField.dimensions = some ⟨0, 1, -1, 0, 0, 0, 0⟩ ∧
      (loopBody Real.sqrt cyl saveUnitVectors d ⟨C, some (dims, cells)⟩).written.getLast? =
        (loopBody Real.sqrt cyl saveUnitVectors d ⟨C, some (dims, cells)⟩).Ucyl ∧
      ((loopBody Real.sqrt cyl saveUnitVectors d ⟨C, some (dims, cells)⟩).Ucyl.map
        volVectorField.dimensions = some dims ↔ dims = ⟨0, 1, -1, 0, 0, 0, 0⟩) ∧
      (timeStep Real.sqrt saveUnitVectors d ⟨C, some (dims, cells)⟩).map
          (fun s => s.Ucyl.map volVectorField.dimensions) =
        (cylindricalCS.construct Real.sqrt (rotCenter d) (axisVec d)
          (dirVec (axisVec d)) false).map
          (fun _ => some (⟨0, 1, -1, 0, 0, 0, 0⟩ : dimensionSet)) := by
  refine ⟨rfl, ?_, ?_, ?_⟩
  · cases saveUnitVectors <;> simp [loopBody]
  · constructor
    · intro h
      exact (Option.some.inj h).symm
    · intro h
      rw [h]
      rfl
  · rw [timeStep_eq]
    cases cylindricalCS.construct Real.sqrt (rotCenter d) (axisVec d)
        (dirVec (axisVec d)) false <;> rfl

/-- C18 (agreement with the reference on the global axes): when the axis is one
of `(1, 0, 0)`, `(0, 1, 0)`, `(0, 0, 1)` and the origin is `(0, 0, 0)`, then for
every cell centre `c` and every `U` the program's
`c - cmptMultiply(c, a)` is the reference `c - (c . a) a`, and `cRad`, `cTheta`
and `Ucyl` are the reference `Rad`, `Theta` and `Ucyl`; at every cell off the
axis they have the values `perp / |perp|`, `a x Rad` and
`(U . Rad, U . Theta, U . a)`. -/
theorem agrees_with_reference_global_axis (d : RotatingMotionCoeffs ℝ) (c U : Vec ℝ)
    (haxis : axisVec d = globalX ∨ axisVec d = globalY ∨ axisVec d = globalZ)
    (horigin : rotCenter d = Vec.zero) :
    radialPart (axisVec d) c = specPerp (axisVec d) (rotCenter d) c ∧
      cRad Real.sqrt (axisVec d) c = specRad Real.sqrt (axisVec d) (rotCenter d) c ∧
      cTheta Real.sqrt (axisVec d) c =
        specTheta Real.sqrt (axisVec d) (rotCenter d) c ∧
      convert Real.sqrt d c U = specUcyl Real.sqrt (axisVec d) (rotCenter d) c U ∧
      (specPerp (axisVec d) (rotCenter d) c ≠ Vec.zero →
        ∃ r, specRad Real.sqrt (axisVec d) (rotCenter d) c = some r ∧
          cRad Real.sqrt (axisVec d) c = some r ∧
          cTheta Real.sqrt (axisVec d) c = some ((axisVec d).cross r) ∧
          convert Real.sqrt d c U =
            some ⟨U.dot r, U.dot ((axisVec d).cross r), U.dot (axisVec d)⟩) := by
  obtain ⟨_, _, hspec⟩ := global_axis_facts (axisVec d) c haxis
  have hw : radialPart (axisVec d) c = specPerp (axisVec d) (rotCenter d) c := by
    rw [horigin, hspec]
  have hrad : cRad Real.sqrt (axisVec d) c =
      specRad Real.sqrt (axisVec d) (rotCenter d) c := by
    unfold cRad specRad
    rw [hw]
  have htheta : cTheta Real.sqrt (axisVec d) c =
      specTheta Real.sqrt (axisVec d) (rotCenter d) c := by
    unfold cTheta specTheta
    rw [hrad]
  refine ⟨hw, hrad, htheta, ?_, ?_⟩
  · unfold convert Ucyl specUcyl
    rw [hrad, htheta]
    rfl
  · intro hperp
    obtain ⟨r, hb, _, _, _⟩ := global_axis_frame d c haxis horigin hperp
    have hr := ((basis_eq_some_iff _ _ _ _).1 hb).1
    refine ⟨r, hrad ▸ hr, hr, cTheta_of_basis _ _ _ _ hb, ?_⟩
    rw [convert_eq, hb]
    rfl

/-- Witness of `agrees_with_reference_global_axis`: axis `(0, 0, 1)`, origin
`(0, 0, 0)`, cell centre `(1, 0, 0)`, `U = (1, 2, 3)`. -/
theorem agrees_with_reference_global_axis_witness :
    radialPart (globalZ : Vec ℝ) ⟨1, 0, 0⟩ = specPerp globalZ Vec.zero ⟨1, 0, 0⟩ ∧
      ∃ r, specRad Real.sqrt (globalZ : Vec ℝ) Vec.zero ⟨1, 0, 0⟩ = some r ∧
        cRad Real.sqrt (globalZ : Vec ℝ) ⟨1, 0, 0⟩ = some r ∧
        cTheta Real.sqrt (globalZ : Vec ℝ) ⟨1, 0, 0⟩ = some ((globalZ : Vec ℝ).cross r) ∧
        convert Real.sqrt ⟨globalZ, Vec.zero⟩ ⟨1, 0, 0⟩ ⟨1, 2, 3⟩ =
          some ⟨(⟨1, 2, 3⟩ : Vec ℝ).dot r,
            (⟨1, 2, 3⟩ : Vec ℝ).dot ((globalZ : Vec ℝ).cross r),
            (⟨1, 2, 3⟩ : Vec ℝ).dot globalZ⟩ :=
  ⟨(agrees_with_reference_global_axis ⟨globalZ, Vec.zero⟩ ⟨1, 0, 0⟩ ⟨1, 2, 3⟩
      (Or.inr (Or.inr rfl)) rfl).1,
    (agrees_with_reference_global_axis ⟨globalZ, Vec.zero⟩ ⟨1, 0, 0⟩ ⟨1, 2, 3⟩
      (Or.inr (Or.inr rfl)) rfl).2.2.2.2 specPerp_S1_ne⟩

/-- C19 (what the program's basis guarantees for an arbitrary axis): for every
axis `a`, unit or not, and every cell centre `c` such that
`c - cmptMultiply(c, a)` is non-zero and `a x cRad` is non-zero, `cRad` and
`cTheta` are defined and `|cRad| = 1`, `|cTheta| = 1`, `cTheta . a = 0` and
`cTheta . cRad = 0`. -/
theorem basis_guarantees (a c : Vec ℝ)
    (hrad : radialPart a c ≠ Vec.zero)
    (hcross : ∀ r, cRad Real.sqrt a c = some r → a.cross r ≠ Vec.zero) :
    ∃ r t, cRad Real.sqrt a c = some r ∧ cTheta Real.sqrt a c = some t ∧
      mag Real.sqrt r = 1 ∧ mag Real.sqrt t = 1 ∧ t.dot a = 0 ∧ t.dot r = 0 := by
  obtain ⟨r, t, hr, ht, hr1, ht1, hta, htr⟩ :=
    basis_of_defined ⟨a, Vec.zero⟩ c hrad hcross
  exact ⟨r, t, hr, ht, hr1, ht1, hta, htr⟩

/-- Witness of `basis_guarantees`: the axis `(0, 0, 2)`, not of unit magnitude,
and the cell centre `(3, 0, -4)`, where `cRad = (3/5, 0, 4/5)` is not orthogonal
to the axis. -/
theorem basis_guarantees_witness :
    radialPart (⟨0, 0, 2⟩ : Vec ℝ) ⟨3, 0, -4⟩ ≠ Vec.zero ∧
      ∃ r t, cRad Real.sqrt (⟨0, 0, 2⟩ : Vec ℝ) ⟨3, 0, -4⟩ = some r ∧
        cTheta Real.sqrt (⟨0, 0, 2⟩ : Vec ℝ) ⟨3, 0, -4⟩ = some t ∧
        mag Real.sqrt r = 1 ∧ mag Real.sqrt t = 1 ∧
        t.dot (⟨0, 0, 2⟩ : Vec ℝ) = 0 ∧ t.dot r = 0 :=
  have hne : radialPart (⟨0, 0, 2⟩ : Vec ℝ) ⟨3, 0, -4⟩ ≠ Vec.zero := by
    intro h
    have hx := congrArg Vec.x h
    norm_num [radialPart, cmptMultiply, Vec.sub, Vec.zero] at hx
  ⟨hne, basis_guarantees ⟨0, 0, 2⟩ ⟨3, 0, -4⟩ hne (by
    intro r hr
    have hr0 := ((basis_eq_some_iff _ _ _ _).1
      (basis_double_axis_off_plane (⟨0, 0, 0⟩ : Vec ℝ))).1
    have hreq : r = ⟨3 / 5, 0, 4 / 5⟩ :=
      Option.some.inj (hr.symm.trans hr0)
    subst hreq
    intro h
    have hy := congrArg Vec.y h
    norm_num [Vec.cross, Vec.zero] at hy)⟩

end Claims

end ConvertToCylindrical
